import Mathlib

/-!
Verification development for the videosum processing pipeline
(`scripts/process_video.py`, `scripts/regenerate_notes.py`,
`scripts/regenerate_blog.py`).

The Python source is shallowly embedded: pure computations become Lean
functions on `Nat`/`Int`/`ℚ`/`List Char`, filesystem and network activity
becomes an explicit trace of `Effect` values produced by a pipeline
function over an environment record that supplies the results of the
external collaborators (media tool, transcription service, text
generation service).  Python `float` arithmetic is modelled as exact
rational arithmetic, and Python `round(x, 4)` as round-half-to-even at
four decimal places.
-/

set_option autoImplicit false

namespace VideoSum

/-! ## Python-style rounding

`round(x, 4)` in Python rounds half to even.  We model it exactly over ℚ. -/

/-- Round a rational to the nearest integer, ties to even
(the behaviour of Python's builtin `round`). -/
def roundHalfEven (q : ℚ) : ℤ :=
  let f := ⌊q⌋
  let r := q - f
  if r < 1/2 then f
  else if 1/2 < r then f + 1
  else if Even f then f else f + 1

/-- Python `round(q, 4)`: round half to even at four decimal places. -/
def pyRound4 (q : ℚ) : ℚ := (roundHalfEven (q * 10000) : ℚ) / 10000

/-! ## Cost ledger (`metadata['costs']`)

The metadata record's cost ledger maps stage names
(`transcription`, `summarization`, `blog`) to amounts, plus a `total`.
A missing key is modelled as `none`; the source reads missing entries
with `dict.get(key, 0)`. -/

/-- The cost ledger embedded in a metadata record.  `none` models an
absent dictionary key. -/
structure Costs where
  transcription : Option ℚ
  summarization : Option ℚ
  blog : Option ℚ
  total : Option ℚ
  deriving DecidableEq, Repr

/-- `scripts/regenerate_notes.py`, `process_folder`, lines 131-139:
after generating new notes with cost `cost`, set
`costs['summarization'] = round(cost, 4)` and
`costs['total'] = round(costs.get('transcription', 0) + cost + costs.get('blog', 0), 4)`.
The other entries of the dictionary are not touched. -/
def regenerate_notes_update_costs (c : Costs) (cost : ℚ) : Costs :=
  { c with
    summarization := some (pyRound4 cost)
    total := some (pyRound4 (c.transcription.getD 0 + cost + c.blog.getD 0)) }

/-! ## Chunk planner (`split_audio`, `process_video.py` lines 105-145)

The plan either keeps the original audio file untouched (size within the
limit) or re-encodes `floor(size / maxSize) + 1` equal-duration segments.
`int(file_size / max_size)` in the source is float division truncated;
we model it as exact integer division (`Nat.div`). -/

/-- One entry of the chunk plan: either the unmodified source audio file,
or a re-encoded segment with a start offset and a duration in seconds. -/
inductive AudioChunk where
  | original
  | segment (start duration : ℚ)
  deriving DecidableEq, Repr

/-- `split_audio(audio_path, max_size_mb)`: `fileSize` is
`audio_path.stat().st_size`, `duration` the probed duration in seconds of
the whole audio.  Returns the chunk plan (the source writes each segment
to disk with ffmpeg; here the plan records each segment's start offset
`i * chunk_duration` and duration `chunk_duration`). -/
def split_audio (fileSize : ℕ) (maxSizeMb : ℕ) (duration : ℚ) : List AudioChunk :=
  let maxSize := maxSizeMb * 1024 * 1024
  if fileSize ≤ maxSize then [AudioChunk.original]
  else
    let numChunks := fileSize / maxSize + 1
    let chunkDuration := duration / numChunks
    (List.range numChunks).map
      (fun i : ℕ => AudioChunk.segment ((i : ℚ) * chunkDuration) chunkDuration)

/-- The duration a chunk-plan entry contributes (the unmodified original
is not a re-encoded segment and contributes no computed duration). -/
def AudioChunk.plannedDuration : AudioChunk → ℚ
  | .original => 0
  | .segment _ d => d

/-! ## Folder-name sanitization (`sanitize_folder_name`, lines 541-551)

Strings are modelled as `List Char`.  Python's `\s` / `str.strip()` is
modelled over the ASCII whitespace characters. -/

/-- The characters removed by the reserved-character substitution pass. -/
def reservedChars : List Char := ['<', '>', ':', '"', '/', '\\', '|', '?', '*']

/-- ASCII whitespace, as matched by Python's whitespace class and
stripped by `str.strip()`. -/
def isPySpace (c : Char) : Bool :=
  c = ' ' || c = '\t' || c = '\n' || c = '\r' || c = '\x0b' || c = '\x0c'

/-- A character matched by the whitespace-or-dash class of the collapsing
pass. -/
def isSpaceDash (c : Char) : Bool := isPySpace c || c = '-'

/-- The collapsing pass: replace each maximal run of whitespace or dashes
by a single space. -/
def collapseRuns : List Char → List Char
  | [] => []
  | [c] => if isSpaceDash c then [' '] else [c]
  | c :: d :: rest =>
    if isSpaceDash c then
      if isSpaceDash d then collapseRuns (d :: rest)
      else ' ' :: collapseRuns (d :: rest)
    else c :: collapseRuns (d :: rest)

/-- Python `str.strip()`: drop leading and trailing whitespace. -/
def pyStrip (l : List Char) : List Char :=
  ((l.dropWhile isPySpace).reverse.dropWhile isPySpace).reverse

/-- The trailing-cleanup pass `rstrip` with the two characters period and
space: drop them from the end. -/
def rstripDotSpace (l : List Char) : List Char :=
  (l.reverse.dropWhile (fun c => c = '.' || c = ' ')).reverse

/-- `sanitize_folder_name(name, max_length)`: remove reserved characters,
collapse whitespace/dash runs to single spaces, strip and truncate to
`maxLength` characters, then strip trailing periods and spaces. -/
def sanitize_folder_name (name : List Char) (maxLength : ℕ) : List Char :=
  let s1 := name.filter (fun c => decide (c ∉ reservedChars))
  let s2 := collapseRuns s1
  let s3 := (pyStrip s2).take maxLength
  rstripDotSpace s3

/-- String-level wrapper of `sanitize_folder_name` with the source's
default maximum length of 80. -/
def sanitizeFolderNameStr (name : String) : String :=
  String.mk (sanitize_folder_name name.toList 80)

/-- `create_readable_folder_name(title, date)`: the date part followed by
the sanitized title, joined by a spaced dash. -/
def create_readable_folder_name (dateStr : String) (title : String) : String :=
  dateStr ++ " - " ++ sanitizeFolderNameStr title

/-! ## Collision-safe folder finalization (`process_video`, lines 633-639)

`readable_folder_name` starts as the computed name; while a folder of
that name exists, the original name with an incrementing parenthesized
counter is tried.  The unbounded `while` loop is modelled with explicit
fuel; `none` is the fuel-exhausted case, which the callers avoid by
supplying more fuel than there are existing folders. -/

/-- The `k`-th candidate name: the computed name itself, then the name
followed by ` (1)`, ` (2)`, and so on. -/
def nthName (base : String) : ℕ → String
  | 0 => base
  | k + 1 => base ++ " (" ++ toString (k + 1) ++ ")"

/-- The collision-resolution loop: starting from candidate index `k`,
return the first candidate for which `taken` is false. -/
def find_free_name (taken : String → Bool) (base : String) : ℕ → ℕ → Option String
  | 0, _ => none
  | fuel + 1, k =>
    if taken (nthName base k) then find_free_name taken base fuel (k + 1)
    else some (nthName base k)

/-! ## Duplicate scan (`check_already_processed`, lines 64-77)

The loop body wraps `json.loads(metadata_file.read_text())` and the
`metadata.get('source_hash')` comparison in
`except (json.JSONDecodeError, IOError): continue`.  That clause does
not cover every way a record can be malformed: `read_text()` raises
`UnicodeDecodeError` (a `ValueError`, not an `IOError`) on bytes that
are not valid UTF-8, and when the file parses to a JSON value that is
not an object, `metadata.get` raises `AttributeError`.  Both escape the
`except` clause and abort the scan, so the per-record outcome is
modelled with all four malformed cases kept distinct, and the scan
returns in an `Except` whose error is the uncaught exception. -/

/-- The outcome of reading and parsing one `metadata.json` during the
scan: a read failure raising `IOError` (caught, skipped); contents that
fail JSON decoding, raising `json.JSONDecodeError` (caught, skipped);
bytes that are not valid UTF-8, raising `UnicodeDecodeError` (uncaught);
a JSON value that is not an object, on which `metadata.get` raises
`AttributeError` (uncaught); or a parsed record whose `source_hash` key
holds the given value (`none` when the key is missing, in which case the
lookup with `get` yields Python `None`). -/
inductive RecordOutcome where
  | ioError
  | jsonError
  | undecodable
  | nonDict
  | record (sourceHash : Option String)
  deriving DecidableEq, Repr

/-- One `metadata.json` file found by the recursive scan.  `folder` is
the containing directory (as path components under the archive root). -/
structure ArchiveEntry where
  folder : List String
  outcome : RecordOutcome
  deriving DecidableEq, Repr

/-- Outcomes the `except (json.JSONDecodeError, IOError)` clause catches
and skips. -/
def RecordOutcome.caughtSkip : RecordOutcome → Bool
  | .ioError => true
  | .jsonError => true
  | _ => false

/-- Outcomes that raise an exception the `except` clause does not catch,
aborting the scan. -/
def RecordOutcome.raises : RecordOutcome → Bool
  | .undecodable => true
  | .nonDict => true
  | _ => false

/-- The uncaught exception a raising outcome produces. -/
def RecordOutcome.exceptionName : RecordOutcome → String
  | .undecodable => "UnicodeDecodeError"
  | .nonDict => "AttributeError"
  | _ => ""

/-- The scan loop over the records in scan order: caught failures are
skipped, uncaught ones abort with their exception, a parsed record whose
`source_hash` equals the fingerprint returns its folder, and a finished
loop returns the explicit not-found value. -/
def scanEntries (fileHash : String) : List ArchiveEntry → Except String (Option (List String))
  | [] => .ok none
  | e :: rest =>
    match e.outcome with
    | .ioError => scanEntries fileHash rest
    | .jsonError => scanEntries fileHash rest
    | .undecodable => .error "UnicodeDecodeError"
    | .nonDict => .error "AttributeError"
    | .record srcHash =>
      if srcHash = some fileHash then .ok (some e.folder) else scanEntries fileHash rest

/-- `check_already_processed(output_dir, file_hash)`: if the archive root
does not exist, return `None`; otherwise run the scan loop.  The
`Except` error is an exception propagating out of the function. -/
def check_already_processed (outputDirExists : Bool) (entries : List ArchiveEntry)
    (fileHash : String) : Except String (Option (List String)) :=
  if outputDirExists then scanEntries fileHash entries
  else .ok none

/-! ## The pipeline orchestrator (`process_video`, lines 562-692)

The orchestrator is embedded as a function from an environment — the
inputs plus the scripted results of the external collaborators — to the
pair of the trace of filesystem/service effects it performs, in order,
and its outcome (`Except` models an uncaught Python exception).  Paths
are lists of components relative to the archive root (`output_base`
itself is the empty path). -/

/-- One observable side effect of a pipeline run.  `mkdirNew` is the
creation of a directory that did not exist before (an existing directory
hit by the recursive make is not an effect); `extractAudio` is the
ffmpeg extraction producing `audio.mp3` in the given folder plus the
duration probe; `transcribeChunk i` is the transcription request for
chunk `i`. -/
inductive Effect where
  | mkdirNew (p : List String)
  | extractAudio
  | transcribeChunk (i : ℕ)
  | writeFile (folder : List String) (name : String)
  | renameFolder (src dst : List String)
  | unlinkFile (folder : List String) (name : String)
  deriving DecidableEq, Repr

/-- The structured result object returned by `process_video`. -/
inductive PVResult where
  | duplicate (existingFolder : List String)
  | success (folder : List String) (folderName : String) (title : String) (cost : ℚ)
  deriving DecidableEq, Repr

/-- All prefixes of a path, shortest first; these are the directories a
recursive directory make touches. -/
def pathPrefixes : List String → List (List String)
  | [] => [[]]
  | c :: rest => [] :: (pathPrefixes rest).map (fun p => c :: p)

/-- The zero-padded chunk file name used by `split_audio`. -/
def pad3 (i : ℕ) : String :=
  if i < 10 then "00" ++ toString i
  else if i < 100 then "0" ++ toString i
  else toString i

def chunk_file_name (i : ℕ) : String := "chunk_" ++ pad3 i ++ ".mp3"

/-- The cost computed at the end of `transcribe` (lines 184-186):
`duration_minutes = file_size / (16000 * 2 * 60)` — an estimate from the
file size, not the probed duration — times the fixed per-minute rate. -/
def transcription_cost (fileSize : ℕ) : ℚ :=
  (fileSize : ℚ) / (16000 * 2 * 60) * (6 / 1000)

/-- The sequential per-chunk transcription loop of `transcribe`:
one request per chunk in order; on success of a chunk, its temporary
file is deleted unless the chunk is the unmodified original audio
(`multi = false`); the first service error aborts the run. -/
def transcribe_chunks (f : ℕ → Except String String) (multi : Bool) (folder : List String) :
    List ℕ → List Effect × Except String (List String)
  | [] => ([], Except.ok [])
  | i :: rest =>
    match f i with
    | .error msg => ([Effect.transcribeChunk i], .error msg)
    | .ok t =>
      let cleanup := if multi then [Effect.unlinkFile folder (chunk_file_name i)] else []
      (Effect.transcribeChunk i :: (cleanup ++ (transcribe_chunks f multi folder rest).1),
       (transcribe_chunks f multi folder rest).2.map (fun ts => t :: ts))

/-- `transcribe(audio_path)` (lines 159-188): plan the chunks from the
audio file's size, transcribe them in order, join the chunk transcripts
with a blank line, and return the size-based cost estimate. -/
def transcribe (fileSize : ℕ) (duration : ℚ) (folder : List String)
    (chunkT : ℕ → Except String String) : List Effect × Except String (String × ℚ) :=
  let chunks := split_audio fileSize 20 duration
  let r := transcribe_chunks chunkT (decide (1 < chunks.length)) folder
    (List.range chunks.length)
  (r.1, r.2.map (fun ts => (String.intercalate "\n\n" ts, transcription_cost fileSize)))

/-- Split a character list into its lines at newline characters (the
line boundaries at which a multiline anchored pattern matches). -/
def splitLines : List Char → List (List Char)
  | [] => [[]]
  | c :: rest =>
    match splitLines rest with
    | [] => [[]]
    | l :: ls => if c = '\n' then [] :: l :: ls else (c :: l) :: ls

/-- Title extraction (lines 626-627): the text of the first line of the
notes that is a level-1 markdown header, i.e. the first line of the form
`# ` followed by at least one character. -/
def extract_title (notesMd : String) : Option String :=
  ((splitLines notesMd.toList).findSome? (fun line =>
    match line with
    | '#' :: ' ' :: c :: rest => some (c :: rest)
    | _ => none)).map (fun l => String.mk l)

/-- The inputs of one `process_video` run together with the scripted
responses of the external collaborators.  `existingDirs` lists the
directories that exist under (and including, as `[]`) the archive root
when the run starts; `archive` lists the metadata records the duplicate
scan visits, in scan order. -/
structure Env where
  videoExists : Bool
  openaiKey : Bool
  anthropicKey : Bool
  videoStem : String
  fileHash : String
  subfolder : Option (List String)
  existingDirs : List (List String)
  archive : List ArchiveEntry
  timestampStr : String
  dateStr : String
  extractResult : Except String ℚ
  audioSize : ℕ
  chunkTranscribe : ℕ → Except String String
  notesResult : Except String (String × ℚ)
  blogResult : Except String (String × ℚ)

/-- `process_video(video_path, output_base, subfolder)`: the orchestrator.
Returns the ordered effect trace and the outcome.  Mirrors the source
statement for statement: input validation, recursive make of the target
directory, duplicate check, provisional folder, audio extraction,
transcription, notes generation, title extraction, collision-safe
rename, blog generation, HTML rendering, audio cleanup, metadata write.
The collision loop is given fuel `dirs.length + 1`; the `getD` fallback
is unreachable because the candidate names are pairwise distinct. -/
def process_video (env : Env) : List Effect × Except String PVResult :=
  if env.videoExists = false then ([], .error "Video not found")
  else if env.openaiKey = false then ([], .error "OPENAI_API_KEY not set")
  else if env.anthropicKey = false then ([], .error "ANTHROPIC_API_KEY not set")
  else
    let target := env.subfolder.getD []
    let newDirs := (pathPrefixes target).filter (fun p => decide (p ∉ env.existingDirs))
    let mkdirEffects := newDirs.map Effect.mkdirNew
    let dirs1 := env.existingDirs ++ newDirs
    match check_already_processed true env.archive env.fileHash with
    | .error msg => (mkdirEffects, .error msg)
    | .ok (some existing) => (mkdirEffects, .ok (.duplicate existing))
    | .ok none =>
      let tempName := "_processing_" ++ env.timestampStr
      let tempPath := target ++ [tempName]
      let e2 := mkdirEffects ++
        (if tempPath ∈ dirs1 then [] else [Effect.mkdirNew tempPath])
      let dirs2 := dirs1 ++ [tempPath]
      match env.extractResult with
      | .error msg => (e2 ++ [Effect.extractAudio], .error msg)
      | .ok duration =>
        let e3 := e2 ++ [Effect.extractAudio]
        let tr := transcribe env.audioSize duration tempPath env.chunkTranscribe
        match tr.2 with
        | .error msg => (e3 ++ tr.1, .error msg)
        | .ok (_transcript, transcriptionCost) =>
          let e4 := e3 ++ tr.1 ++ [Effect.writeFile tempPath "transcript.txt"]
          match env.notesResult with
          | .error msg => (e4, .error msg)
          | .ok (notesMd, summarizationCost) =>
            let e5 := e4 ++ [Effect.writeFile tempPath "notes.md"]
            let title := (extract_title notesMd).getD env.videoStem
            let base := create_readable_folder_name env.dateStr title
            let finalName := (find_free_name
              (fun n => decide ((target ++ [n]) ∈ dirs2)) base (dirs2.length + 1) 0).getD base
            let finalPath := target ++ [finalName]
            let e6 := e5 ++ [Effect.renameFolder tempPath finalPath]
            match env.blogResult with
            | .error msg => (e6, .error msg)
            | .ok (_blogMd, blogCost) =>
              let e7 := e6 ++ [Effect.writeFile finalPath "blog.md",
                Effect.writeFile finalPath "transcript.html",
                Effect.unlinkFile finalPath "audio.mp3",
                Effect.writeFile finalPath "metadata.json"]
              let totalCost := transcriptionCost + summarizationCost + blogCost
              (e7, .ok (.success finalPath finalName title totalCost))

/-- A concrete run fixture: an archive whose record under
`2025-01-01 - Old` already carries the fingerprint `abc` of the new
source, and a `--folder "Math 101"` subfolder that does not exist yet
(only the archive root `[]` exists). -/
def dupEnv : Env where
  videoExists := true
  openaiKey := true
  anthropicKey := true
  videoStem := "video"
  fileHash := "abc"
  subfolder := some ["Math 101"]
  existingDirs := [[]]
  archive := [ArchiveEntry.mk ["2025-01-01 - Old"] (RecordOutcome.record (some "abc"))]
  timestampStr := "20250101_120000"
  dateStr := "2025-01-01"
  extractResult := Except.ok 60
  audioSize := 1000
  chunkTranscribe := fun _ => Except.ok "text"
  notesResult := Except.ok ("# T", 1)
  blogResult := Except.ok ("blog", 1)

/-- A concrete run fixture for a fresh source with no subfolder: every
stage succeeds. -/
def okEnv : Env := { dupEnv with subfolder := none, archive := [] }

/-- A concrete run fixture whose blog-generation stage fails. -/
def failBlogEnv : Env := { okEnv with blogResult := Except.error "service error" }

/-- A concrete run fixture whose archive contains a matching record, but
behind a `metadata.json` whose bytes are not valid UTF-8: the scan visits
the undecodable record first and raises. -/
def crashScanEnv : Env :=
  { dupEnv with
    subfolder := none
    archive := [ArchiveEntry.mk ["bad"] RecordOutcome.undecodable,
      ArchiveEntry.mk ["2025-01-01 - Old"] (RecordOutcome.record (some "abc"))] }

/-! ## Markdown renderer (`markdown_to_html`, lines 416-453)

The body conversion is a chain of substitution passes over the text, in
the source's order: h3, h2, h1 headers; bold; italic; unordered list
items; wrapping of consecutive item tags; ordered list items; horizontal
rules; paragraph wrapping; line-break insertion.  Each pass mirrors the
corresponding substitution with its multiline/lazy semantics; scans over
the text use explicit fuel bounded by the text length.  The surrounding
fixed HTML page template (head and style block) is not part of the body
transform and is omitted. -/

/-- Join lines with newline separators (inverse of `splitLines`). -/
def joinLines : List (List Char) → List Char
  | [] => []
  | [l] => l
  | l :: l2 :: ls => l ++ '\n' :: joinLines (l2 :: ls)

/-- Apply a per-line substitution to every line of the text, as a
multiline anchored substitution does. -/
def mapLines (f : List Char → List Char) (s : List Char) : List Char :=
  joinLines ((splitLines s).map f)

/-- A whole-line prefix-marker substitution: if the line starts with the
marker and has at least one more character, replace the marker by an
opening tag and append a closing tag.  Used for the three header levels
and for unordered list items. -/
def lineMarkerSub (marker openT closeT : List Char) (line : List Char) : List Char :=
  if marker.isPrefixOf line && decide (marker.length < line.length) then
    openT ++ line.drop marker.length ++ closeT
  else line

/-- The ordered-list line substitution: one or more digits, a period, a
space, then at least one character. -/
def lineNumberedSub (line : List Char) : List Char :=
  let ds := line.takeWhile (fun c => c.isDigit)
  match ds, line.drop ds.length with
  | _ :: _, '.' :: ' ' :: c :: rest => "<li>".toList ++ (c :: rest) ++ "</li>".toList
  | _, _ => line

/-- The horizontal-rule line substitution: a line of three or more
dashes. -/
def lineHrSub (line : List Char) : List Char :=
  if decide (3 ≤ line.length) && line.all (fun c => c = '-') then "<hr>".toList else line

/-- Lazy closing search for a possibly empty group: the shortest
newline-free (possibly empty) group after which `delim` occurs.  Returns
the group and the remainder after the delimiter. -/
def lazyClose0 (delim : List Char) : List Char → Option (List Char × List Char)
  | [] => none
  | c :: rest =>
    if delim.isPrefixOf (c :: rest) then some ([], (c :: rest).drop delim.length)
    else if c = '\n' then none
    else
      match lazyClose0 delim rest with
      | none => none
      | some (g, after) => some (c :: g, after)

/-- Lazy closing search for a nonempty group (one-or-more lazy
repetition of any character but newline). -/
def lazyClose1 (delim : List Char) : List Char → Option (List Char × List Char)
  | [] => none
  | c :: rest =>
    if c = '\n' then none
    else
      match lazyClose0 delim rest with
      | none => none
      | some (g, after) => some (c :: g, after)

/-- One inline-emphasis substitution pass (bold or italic): scan left to
right; at each position, if the delimiter opens a lazily closed nonempty
group, emit the tagged group and continue after the match, otherwise
emit the character.  Fuel is bounded by the text length. -/
def emphSub (delim openT closeT : List Char) : ℕ → List Char → List Char
  | 0, l => l
  | _ + 1, [] => []
  | fuel + 1, c :: rest =>
    if delim.isPrefixOf (c :: rest) then
      match lazyClose1 delim ((c :: rest).drop delim.length) with
      | some (g, after) => openT ++ g ++ closeT ++ emphSub delim openT closeT fuel after
      | none => c :: emphSub delim openT closeT fuel rest
    else c :: emphSub delim openT closeT fuel rest

/-- Match one `<li>...</li>` item (lazy, newline-free body) followed by
an optional newline; return the matched text and the remainder. -/
def liItem (l : List Char) : Option (List Char × List Char) :=
  if ("<li>".toList).isPrefixOf l then
    match lazyClose0 ("</li>".toList) (l.drop 4) with
    | some (g, after) =>
      match after with
      | '\n' :: r => some ("<li>".toList ++ g ++ "</li>".toList ++ ['\n'], r)
      | _ => some ("<li>".toList ++ g ++ "</li>".toList, after)
    | none => none
  else none

/-- Match a maximal run of one or more consecutive items. -/
def liRun : ℕ → List Char → Option (List Char × List Char)
  | 0, _ => none
  | fuel + 1, l =>
    match liItem l with
    | none => none
    | some (m, rest) =>
      match liRun fuel rest with
      | some (m2, rest2) => some (m ++ m2, rest2)
      | none => some (m, rest)

/-- The wrapping pass: each maximal run of consecutive `<li>` items is
enclosed in a single `<ul>` container. -/
def wrapLiPass : ℕ → List Char → List Char
  | 0, l => l
  | _ + 1, [] => []
  | fuel + 1, c :: rest =>
    match liRun (fuel + 1) (c :: rest) with
    | some (m, after) => "<ul>".toList ++ m ++ "</ul>".toList ++ wrapLiPass fuel after
    | none => c :: wrapLiPass fuel rest

/-- Prepend a character to the first piece of a split result. -/
def consHead (c : Char) : List (List Char) → List (List Char)
  | [] => [[c]]
  | l :: ls => (c :: l) :: ls

/-- Split on blank lines (the two-newline separator), leftmost and
non-overlapping, as the paragraph split does. -/
def splitOnBlank : ℕ → List Char → List (List Char)
  | 0, l => [l]
  | _ + 1, [] => [[]]
  | fuel + 1, '\n' :: '\n' :: r2 => [] :: splitOnBlank fuel r2
  | fuel + 1, c :: rest => consHead c (splitOnBlank fuel rest)

/-- The per-paragraph step: strip the paragraph; if it is nonempty and
does not already start with a markup tag, wrap it in a paragraph tag. -/
def paragraphItem (p : List Char) : List Char :=
  match pyStrip p with
  | [] => []
  | c :: rest =>
    if c = '<' then c :: rest
    else "<p>".toList ++ (c :: rest) ++ "</p>".toList

/-- The line-break pass: each newline neither preceded by `>` nor
followed by `<` becomes an explicit break tag plus the newline.  `prev`
is the previous character of the original text. -/
def brPass : Option Char → List Char → List Char
  | _, [] => []
  | prev, c :: rest =>
    if c = '\n' then
      if decide (prev ≠ some '>') &&
          (match rest with | '<' :: _ => false | _ => true) then
        "<br>\n".toList ++ brPass (some '\n') rest
      else '\n' :: brPass (some '\n') rest
    else c :: brPass (some c) rest

/-- `markdown_to_html(markdown, title)`, body transform: the source's
substitution chain in order. -/
def markdown_to_html_body (md : List Char) : List Char :=
  let b1 := mapLines (lineMarkerSub "### ".toList "<h3>".toList "</h3>".toList) md
  let b2 := mapLines (lineMarkerSub "## ".toList "<h2>".toList "</h2>".toList) b1
  let b3 := mapLines (lineMarkerSub "# ".toList "<h1>".toList "</h1>".toList) b2
  let b4 := emphSub "**".toList "<strong>".toList "</strong>".toList b3.length b3
  let b5 := emphSub "*".toList "<em>".toList "</em>".toList b4.length b4
  let b6 := mapLines (lineMarkerSub "- ".toList "<li>".toList "</li>".toList) b5
  let b7 := wrapLiPass b6.length b6
  let b8 := mapLines lineNumberedSub b7
  let b9 := mapLines lineHrSub b8
  let b10 := joinLines ((splitOnBlank b9.length b9).map paragraphItem)
  brPass none b10

/-- Substring test over character lists. -/
def hasInfix (pat : List Char) : List Char → Bool
  | [] => pat.isEmpty
  | c :: rest => pat.isPrefixOf (c :: rest) || hasInfix pat rest

/-! ## Blog regeneration (`regenerate_blog.py`, `process_folder`,
lines 97-134) -/

/-- The observable state of one job folder as `process_folder` sees it,
together with the cost ledger stored in its `metadata.json`. -/
structure RbFolder where
  transcriptExists : Bool
  metadataExists : Bool
  blogExists : Bool
  costs : Costs
  deriving DecidableEq, Repr

/-- One observable side effect of the blog-regeneration step. -/
inductive RbEffect where
  | generateBlogCall
  | writeBlogFile
  | writeMetadataFile
  deriving DecidableEq, Repr

/-- The result dictionary of `process_folder`. -/
inductive RbStatus where
  | skip (reason : String)
  | success (cost : ℚ)
  deriving DecidableEq, Repr

/-- The blog-stage cost update (lines 124-131): set
`costs['blog'] = round(cost, 4)` and recompute the total from the
transcription, summarization and new blog costs. -/
def regenerate_blog_update_costs (c : Costs) (cost : ℚ) : Costs :=
  { c with
    blog := some (pyRound4 cost)
    total := some (pyRound4 (c.transcription.getD 0 + c.summarization.getD 0 + cost)) }

/-- `process_folder(folder)` of `regenerate_blog.py`: skip when the
transcript or the metadata record is missing or when `blog.md` already
exists (there is no force parameter); otherwise issue one generation
request, write `blog.md`, and write the updated metadata.  Returns the
effect trace, the cost ledger persisted after the call, and the
outcome. -/
def regenerate_blog_process_folder (st : RbFolder) (gen : Except String (String × ℚ)) :
    List RbEffect × Costs × Except String RbStatus :=
  if st.transcriptExists = false then ([], st.costs, .ok (.skip "No transcript.txt"))
  else if st.metadataExists = false then ([], st.costs, .ok (.skip "No metadata.json"))
  else if st.blogExists then ([], st.costs, .ok (.skip "blog.md already exists"))
  else
    match gen with
    | .error m => ([RbEffect.generateBlogCall], st.costs, .error m)
    | .ok (_blogMd, cost) =>
      ([RbEffect.generateBlogCall, RbEffect.writeBlogFile, RbEffect.writeMetadataFile],
       regenerate_blog_update_costs st.costs cost,
       .ok (.success cost))

end VideoSum

namespace VideoSum

/-- Unfolding of `split_audio` in the oversized case. -/
theorem split_audio_of_gt (S M : ℕ) (D : ℚ) (h : ¬ S ≤ M * 1024 * 1024) :
    split_audio S M D =
      (List.range (S / (M * 1024 * 1024) + 1)).map
        (fun i : ℕ => AudioChunk.segment ((i : ℚ) * (D / (S / (M * 1024 * 1024) + 1 : ℕ)))
          (D / (S / (M * 1024 * 1024) + 1 : ℕ))) := by
  simp [split_audio, h]

/-- Summing the planned durations over a mapped list when every image has
the same planned duration. -/
theorem sum_plannedDuration_map (l : List ℕ) (f : ℕ → AudioChunk) (c : ℚ)
    (hf : ∀ i, AudioChunk.plannedDuration (f i) = c) :
    ((l.map f).map AudioChunk.plannedDuration).sum = l.length * c := by
  induction l with
  | nil => simp
  | cons a t ih =>
    simp only [List.map_cons, List.sum_cons, hf, ih, List.length_cons]
    push_cast
    ring

/-- C1: Regenerating only the notes stage updates only the
`summarization` entry of the cost ledger, recomputes `total` from the
transcription, new notes and blog costs present in the record, and never
discards the `transcription` or `blog` entries.  In particular, on a
record with costs `{transcription: 1.0, blog: 2.0}` and a new notes cost
of `0.5`, the resulting ledger is
`{transcription: 1.0, summarization: 0.5, blog: 2.0, total: 3.5}`. -/
theorem C1_cost_ledger_accumulation :
    ∀ (c : Costs) (cost : ℚ),
      (regenerate_notes_update_costs c cost).transcription = c.transcription ∧
      (regenerate_notes_update_costs c cost).blog = c.blog ∧
      (regenerate_notes_update_costs c cost).summarization = some (pyRound4 cost) ∧
      (regenerate_notes_update_costs c cost).total =
        some (pyRound4 (c.transcription.getD 0 + cost + c.blog.getD 0)) ∧
      regenerate_notes_update_costs ⟨some 1, none, some 2, none⟩ (1/2) =
        ⟨some 1, some (1/2), some 2, some (7/2)⟩ := by
  intro c cost
  refine ⟨rfl, rfl, rfl, rfl, ?_⟩
  show regenerate_notes_update_costs ⟨some 1, none, some 2, none⟩ (1/2) =
    ⟨some 1, some (1/2), some 2, some (7/2)⟩
  unfold regenerate_notes_update_costs pyRound4 roundHalfEven
  norm_num

/-- C2: For audio of size `S` bytes and maximum chunk size `M` MiB:
if `S ≤ M·2^20` the plan is exactly one chunk identical to the source
audio; if `S > M·2^20` the chunk count is `⌊S / (M·2^20)⌋ + 1`, every
chunk is a segment of duration `totalDuration / chunkCount`, and the
planned chunk durations sum exactly to the total duration. -/
theorem C2_chunk_planning :
    ∀ (S M : ℕ) (D : ℚ),
      (S ≤ M * 1024 * 1024 → split_audio S M D = [AudioChunk.original]) ∧
      (M * 1024 * 1024 < S →
        (split_audio S M D).length = S / (M * 1024 * 1024) + 1 ∧
        (∀ ch ∈ split_audio S M D,
          ∃ st, ch = AudioChunk.segment st (D / (S / (M * 1024 * 1024) + 1 : ℕ))) ∧
        ((split_audio S M D).map AudioChunk.plannedDuration).sum = D) := by
  intro S M D
  constructor
  · intro hle
    simp [split_audio, hle]
  · intro hgt
    have hnle : ¬ S ≤ M * 1024 * 1024 := not_le.mpr hgt
    refine ⟨?_, ?_, ?_⟩
    · rw [split_audio_of_gt S M D hnle, List.length_map, List.length_range]
    · intro ch hch
      rw [split_audio_of_gt S M D hnle] at hch
      simp only [List.mem_map, List.mem_range] at hch
      obtain ⟨i, _, rfl⟩ := hch
      exact ⟨_, rfl⟩
    · have hne : ((S / (M * 1024 * 1024) + 1 : ℕ) : ℚ) ≠ 0 := by
        exact_mod_cast Nat.succ_ne_zero (S / (M * 1024 * 1024))
      rw [split_audio_of_gt S M D hnle,
        sum_plannedDuration_map (List.range (S / (M * 1024 * 1024) + 1))
          (fun i : ℕ => AudioChunk.segment
            ((i : ℚ) * (D / (S / (M * 1024 * 1024) + 1 : ℕ)))
            (D / (S / (M * 1024 * 1024) + 1 : ℕ)))
          (D / (S / (M * 1024 * 1024) + 1 : ℕ)) (fun i => rfl),
        List.length_range, mul_div_cancel₀ D hne]

/-- Witness for C2 at a concrete input: a 48 MiB + 1 byte audio file with
the default 20 MiB maximum is split into `⌊S/M⌋ + 1 = 3` chunks. -/
theorem C2_chunk_planning_witness :
    20 * 1024 * 1024 < 50331649 ∧
      (split_audio 50331649 20 300).length = 50331649 / (20 * 1024 * 1024) + 1 :=
  ⟨by norm_num, ((C2_chunk_planning 50331649 20 300).2 (by norm_num)).1⟩

/-- Every character of the collapsed list is either a space or a
character of the input. -/
theorem mem_collapseRuns : ∀ (l : List Char) (c : Char), c ∈ collapseRuns l → c = ' ' ∨ c ∈ l := by
  intro l
  induction l with
  | nil => intro c hc; simp [collapseRuns] at hc
  | cons a t ih =>
    intro c hc
    cases t with
    | nil =>
      cases ha : isSpaceDash a with
      | true =>
        simp [collapseRuns, ha] at hc
        exact Or.inl hc
      | false =>
        simp [collapseRuns, ha] at hc
        exact Or.inr (by simp [hc])
    | cons b t2 =>
      cases ha : isSpaceDash a with
      | true =>
        cases hb : isSpaceDash b with
        | true =>
          simp [collapseRuns, ha, hb] at hc
          rcases ih c hc with h | h
          · exact Or.inl h
          · exact Or.inr (List.mem_cons_of_mem _ h)
        | false =>
          simp [collapseRuns, ha, hb] at hc
          rcases hc with h | h
          · exact Or.inl h
          · rcases ih c h with h2 | h2
            · exact Or.inl h2
            · exact Or.inr (List.mem_cons_of_mem _ h2)
      | false =>
        simp [collapseRuns, ha] at hc
        rcases hc with h | h
        · exact Or.inr (by simp [h])
        · rcases ih c h with h2 | h2
          · exact Or.inl h2
          · exact Or.inr (List.mem_cons_of_mem _ h2)

/-- Dropping a prefix never lengthens a list. -/
theorem length_dropWhile_le (p : Char → Bool) : ∀ l : List Char,
    (l.dropWhile p).length ≤ l.length := by
  intro l
  induction l with
  | nil => simp
  | cons a t ih =>
    by_cases hp : p a
    · rw [List.dropWhile_cons_of_pos hp]
      exact le_trans ih (Nat.le_succ _)
    · rw [List.dropWhile_cons_of_neg hp]

/-- The head of `dropWhile p l` does not satisfy `p`. -/
theorem head?_dropWhile_false (p : Char → Bool) :
    ∀ (l : List Char) (c : Char), (l.dropWhile p).head? = some c → p c = false := by
  intro l
  induction l with
  | nil => intro c hc; simp [List.dropWhile] at hc
  | cons a t ih =>
    intro c hc
    by_cases hp : p a
    · rw [List.dropWhile_cons_of_pos hp] at hc
      exact ih c hc
    · rw [List.dropWhile_cons_of_neg hp] at hc
      simp only [List.head?_cons, Option.some.injEq] at hc
      rw [← hc]
      exact Bool.of_not_eq_true hp

/-- `rstripDotSpace` only removes characters. -/
theorem rstripDotSpace_subset (l : List Char) : rstripDotSpace l ⊆ l := by
  intro c hc
  simp only [rstripDotSpace, List.mem_reverse] at hc
  have hsub := List.dropWhile_sublist (l := l.reverse) (p := fun c => c = '.' || c = ' ')
  exact List.mem_reverse.mp (hsub.subset hc)

/-- `pyStrip` only removes characters. -/
theorem pyStrip_subset (l : List Char) : pyStrip l ⊆ l := by
  intro c hc
  simp only [pyStrip, List.mem_reverse] at hc
  have h1 := (List.dropWhile_sublist (l := (l.dropWhile isPySpace).reverse)
    (p := isPySpace)).subset hc
  have h2 : c ∈ l.dropWhile isPySpace := List.mem_reverse.mp h1
  exact (List.dropWhile_sublist (l := l) (p := isPySpace)).subset h2

/-- C7: For every input string and configured maximum length, the
sanitized folder name contains no filesystem-reserved characters, has
length at most the maximum, and never ends in a period or a space. -/
theorem C7_sanitize_folder_name_safe :
    ∀ (name : List Char) (maxLength : ℕ),
      (∀ c ∈ sanitize_folder_name name maxLength, c ∉ reservedChars) ∧
      (sanitize_folder_name name maxLength).length ≤ maxLength ∧
      (∀ c, (sanitize_folder_name name maxLength).getLast? = some c →
        c ≠ '.' ∧ c ≠ ' ') := by
  intro name maxLength
  refine ⟨?_, ?_, ?_⟩
  · intro c hc
    have h1 : c ∈ (pyStrip (collapseRuns
        (name.filter (fun c => decide (c ∉ reservedChars))))).take maxLength :=
      rstripDotSpace_subset _ hc
    have h2 : c ∈ pyStrip (collapseRuns
        (name.filter (fun c => decide (c ∉ reservedChars)))) :=
      List.take_subset _ _ h1
    have h3 : c ∈ collapseRuns (name.filter (fun c => decide (c ∉ reservedChars))) :=
      pyStrip_subset _ h2
    rcases mem_collapseRuns _ c h3 with h4 | h4
    · rw [h4]; decide
    · have := (List.mem_filter.mp h4).2
      exact of_decide_eq_true this
  · simp only [sanitize_folder_name, rstripDotSpace, List.length_reverse]
    exact le_trans (length_dropWhile_le _ _)
      (by simp only [List.length_reverse]; exact List.length_take_le _ _)
  · intro c hc
    have hc2 : (((pyStrip (collapseRuns
        (name.filter (fun c => decide (c ∉ reservedChars))))).take
          maxLength).reverse.dropWhile (fun c => c = '.' || c = ' ')).head? = some c := by
      rw [← List.getLast?_reverse]
      simpa [sanitize_folder_name, rstripDotSpace] using hc
    have hp := head?_dropWhile_false _ _ _ hc2
    simp only [Bool.or_eq_false_iff, decide_eq_false_iff_not] at hp
    exact hp

/-- Witness for C7 at a concrete input: sanitizing `"My: Video* 1.."`
yields `"My Video 1"`, whose last character `'1'` is neither a period
nor a space and is not reserved. -/
theorem C7_sanitize_folder_name_safe_witness :
    (sanitize_folder_name ("My: Video* 1..".toList) 80).getLast? = some '1' ∧
    ('1' ≠ '.' ∧ '1' ≠ ' ') ∧ '1' ∉ reservedChars :=
  ⟨by decide,
   (C7_sanitize_folder_name_safe ("My: Video* 1..".toList) 80).2.2 '1' (by decide),
   (C7_sanitize_folder_name_safe ("My: Video* 1..".toList) 80).1 '1' (by decide)⟩

/-- Scanning with the caught-and-skipped records (IOError read failures
and JSON decode failures) removed gives the same result. -/
theorem scanEntries_skip_caught (h : String) :
    ∀ l : List ArchiveEntry,
      scanEntries h l = scanEntries h (l.filter (fun e => !e.outcome.caughtSkip)) := by
  intro l
  induction l with
  | nil => rfl
  | cons e t ih =>
    cases ho : e.outcome with
    | ioError => simpa [scanEntries, ho, RecordOutcome.caughtSkip] using ih
    | jsonError => simpa [scanEntries, ho, RecordOutcome.caughtSkip] using ih
    | undecodable => simp [scanEntries, ho, RecordOutcome.caughtSkip]
    | nonDict => simp [scanEntries, ho, RecordOutcome.caughtSkip]
    | record s =>
      by_cases hs : s = some h
      · simp [scanEntries, ho, RecordOutcome.caughtSkip, hs]
      · simpa [scanEntries, ho, RecordOutcome.caughtSkip, hs] using ih

/-- When every record is non-raising and non-matching, the scan finishes
with the explicit not-found value. -/
theorem scanEntries_ok_none (h : String) :
    ∀ l : List ArchiveEntry,
      (∀ e ∈ l, e.outcome.raises = false ∧ e.outcome ≠ RecordOutcome.record (some h)) →
      scanEntries h l = .ok none := by
  intro l
  induction l with
  | nil => intro _; rfl
  | cons e t ih =>
    intro hno
    have he := hno e (List.mem_cons_self e t)
    have ht : ∀ e2 ∈ t, e2.outcome.raises = false ∧
        e2.outcome ≠ RecordOutcome.record (some h) :=
      fun e2 h2 => hno e2 (List.mem_cons_of_mem _ h2)
    cases ho : e.outcome with
    | ioError => simpa [scanEntries, ho] using ih ht
    | jsonError => simpa [scanEntries, ho] using ih ht
    | undecodable =>
      rw [ho] at he
      simp [RecordOutcome.raises] at he
    | nonDict =>
      rw [ho] at he
      simp [RecordOutcome.raises] at he
    | record s =>
      have hs : s ≠ some h := by
        intro hcon
        rw [ho, hcon] at he
        exact he.2 rfl
      simpa [scanEntries, ho, hs] using ih ht

/-- Counterexample to C6 as stated: not every malformed `metadata.json`
is silently skipped.  A record whose bytes are not valid UTF-8 makes
`read_text()` raise `UnicodeDecodeError`, and a record parsing to a JSON
non-object makes `metadata.get` raise `AttributeError`; neither is in
`except (json.JSONDecodeError, IOError)`, so the scan raises instead of
returning the not-found value. -/
theorem C6_scan_raises_on_uncaught :
    check_already_processed true [ArchiveEntry.mk ["bad"] RecordOutcome.undecodable] "y" =
      .error "UnicodeDecodeError" ∧
    check_already_processed true [ArchiveEntry.mk ["bad"] RecordOutcome.undecodable] "y" ≠
      .ok none ∧
    check_already_processed true [ArchiveEntry.mk ["bad2"] RecordOutcome.nonDict] "y" =
      .error "AttributeError" :=
  ⟨rfl, by simp [check_already_processed, scanEntries], rfl⟩

/-- C6 (amended): records whose read raises `IOError` and records whose
contents fail JSON decoding are silently skipped — the scan result
equals that of the archive with those records removed — and when every
record is of this caught kind or parses to a record with a non-matching
(or missing) fingerprint, the scan returns the explicit not-found value
`none` without raising.  A record with undecodable bytes or non-object
JSON, however, raises an uncaught exception (`UnicodeDecodeError` /
`AttributeError`) that aborts the scan. -/
theorem C6_caught_corrupt_skipped :
    ∀ (dirExists : Bool) (entries : List ArchiveEntry) (h : String),
      check_already_processed dirExists entries h =
        check_already_processed dirExists
          (entries.filter (fun e => !e.outcome.caughtSkip)) h ∧
      ((∀ e ∈ entries, e.outcome.raises = false ∧
          e.outcome ≠ RecordOutcome.record (some h)) →
        check_already_processed dirExists entries h = .ok none) ∧
      (∀ (e : ArchiveEntry) (rest : List ArchiveEntry), e.outcome.raises = true →
        check_already_processed true (e :: rest) h = .error e.outcome.exceptionName) := by
  intro dirExists entries h
  have hraise : ∀ (e : ArchiveEntry) (rest : List ArchiveEntry), e.outcome.raises = true →
      check_already_processed true (e :: rest) h = .error e.outcome.exceptionName := by
    intro e rest hr
    cases ho : e.outcome with
    | ioError =>
      rw [ho] at hr
      simp [RecordOutcome.raises] at hr
    | jsonError =>
      rw [ho] at hr
      simp [RecordOutcome.raises] at hr
    | undecodable =>
      simp [check_already_processed, scanEntries, ho, RecordOutcome.exceptionName]
    | nonDict =>
      simp [check_already_processed, scanEntries, ho, RecordOutcome.exceptionName]
    | record s =>
      rw [ho] at hr
      simp [RecordOutcome.raises] at hr
  cases dirExists with
  | false => exact ⟨rfl, fun _ => rfl, hraise⟩
  | true =>
    refine ⟨?_, ?_, hraise⟩
    · simpa [check_already_processed] using scanEntries_skip_caught h entries
    · intro hno
      simpa [check_already_processed] using scanEntries_ok_none h entries hno

/-- Witness for C6 (amended) at a concrete archive: an IOError record, a
JSON-decode-failure record and a mismatching parsed record are all
skipped and the scan returns `none`; a single undecodable record makes
it raise `UnicodeDecodeError`. -/
theorem C6_caught_corrupt_skipped_witness :
    (∀ e ∈ [ArchiveEntry.mk ["a"] RecordOutcome.ioError,
        ArchiveEntry.mk ["b"] RecordOutcome.jsonError,
        ArchiveEntry.mk ["c"] (RecordOutcome.record (some "x"))],
      e.outcome.raises = false ∧ e.outcome ≠ RecordOutcome.record (some "y")) ∧
    check_already_processed true
      [ArchiveEntry.mk ["a"] RecordOutcome.ioError,
        ArchiveEntry.mk ["b"] RecordOutcome.jsonError,
        ArchiveEntry.mk ["c"] (RecordOutcome.record (some "x"))] "y" = .ok none ∧
    (ArchiveEntry.mk ["bad"] RecordOutcome.undecodable).outcome.raises = true ∧
    check_already_processed true [ArchiveEntry.mk ["bad"] RecordOutcome.undecodable] "y" =
      .error (ArchiveEntry.mk ["bad"] RecordOutcome.undecodable).outcome.exceptionName :=
  ⟨by decide,
   (C6_caught_corrupt_skipped true
     [ArchiveEntry.mk ["a"] RecordOutcome.ioError,
       ArchiveEntry.mk ["b"] RecordOutcome.jsonError,
       ArchiveEntry.mk ["c"] (RecordOutcome.record (some "x"))] "y").2.1 (by decide),
   by decide,
   (C6_caught_corrupt_skipped true [] "y").2.2
     (ArchiveEntry.mk ["bad"] RecordOutcome.undecodable) [] (by decide)⟩

/-- C8: The collision-resolution loop never returns a name that already
exists; when the computed name is free it is used as is; when the
computed name is taken and the first suffixed candidate is free, the
result is the original name with the parenthesized suffix `(1)`, which
differs from the original name.  In particular, two successive jobs that
resolve to the same base name receive the base name and then the
suffixed name, never the same name twice. -/
theorem C8_collision_suffix :
    ∀ (existing : List String) (base : String),
      (∀ fuel k n,
        find_free_name (fun m => decide (m ∈ existing)) base fuel k = some n →
          n ∉ existing) ∧
      (base ∉ existing →
        find_free_name (fun m => decide (m ∈ existing)) base (existing.length + 1) 0 =
          some base) ∧
      (base ∈ existing → nthName base 1 ∉ existing →
        find_free_name (fun m => decide (m ∈ existing)) base (existing.length + 1) 0 =
          some (nthName base 1)) ∧
      nthName base 1 ≠ base := by
  intro existing base
  refine ⟨?_, ?_, ?_, ?_⟩
  · intro fuel
    induction fuel with
    | zero => intro k n hn; simp [find_free_name] at hn
    | succ f ih =>
      intro k n hn
      by_cases ht : nthName base k ∈ existing
      · have hd : decide (nthName base k ∈ existing) = true := by simpa using ht
        simp [find_free_name, hd] at hn
        exact ih (k + 1) n hn
      · have hd : decide (nthName base k ∈ existing) = false := by simpa using ht
        simp [find_free_name, hd] at hn
        rw [← hn]
        exact ht
  · intro hb
    have h0 : decide (base ∈ existing) = false := by simpa using hb
    simp [find_free_name, nthName, h0]
  · intro hb h1
    have h0 : decide (base ∈ existing) = true := by simpa using hb
    have h1d : decide (nthName base 1 ∈ existing) = false := by simpa using h1
    have hlen : existing.length ≠ 0 := by
      intro h0len
      rw [List.length_eq_zero] at h0len
      rw [h0len] at hb
      simp at hb
    obtain ⟨m, hm⟩ := Nat.exists_eq_succ_of_ne_zero hlen
    rw [hm]
    have step1 : find_free_name (fun n => decide (n ∈ existing)) base (m.succ + 1) 0 =
        find_free_name (fun n => decide (n ∈ existing)) base m.succ 1 := by
      simp [find_free_name, nthName, h0]
    rw [step1]
    simp [find_free_name, h1d]
  · intro heq
    have h := congrArg String.length heq
    rw [show nthName base 1 = base ++ " (" ++ toString 1 ++ ")" from rfl] at h
    simp only [String.length_append] at h
    have e1 : String.length " (" = 2 := rfl
    have e2 : String.length (toString 1) = 1 := rfl
    have e3 : String.length ")" = 1 := rfl
    omega

/-- Witness for C8 at the spec's concrete scenario: with no existing
folder the job gets `"2025-01-01 - Title"`; a second job, with that
folder now existing, gets `"2025-01-01 - Title (1)"`. -/
theorem C8_collision_suffix_witness :
    find_free_name (fun m => decide (m ∈ ([] : List String))) "2025-01-01 - Title" 1 0 =
      some "2025-01-01 - Title" ∧
    find_free_name (fun m => decide (m ∈ ["2025-01-01 - Title"])) "2025-01-01 - Title" 2 0 =
      some (nthName "2025-01-01 - Title" 1) ∧
    nthName "2025-01-01 - Title" 1 = "2025-01-01 - Title (1)" ∧
    create_readable_folder_name "2025-01-01" "Title" = "2025-01-01 - Title" :=
  ⟨(C8_collision_suffix [] "2025-01-01 - Title").2.1 (by decide),
   (C8_collision_suffix ["2025-01-01 - Title"] "2025-01-01 - Title").2.2.1
     (by decide) (by decide),
   by decide,
   by decide⟩

example : (process_video dupEnv).1 = [Effect.mkdirNew ["Math 101"]] := by decide
example : (process_video dupEnv).2 = .ok (.duplicate ["2025-01-01 - Old"]) := rfl
/-- Membership in an `if` between two lists implies membership in one of
the branches. -/
theorem mem_ite_list {α : Type} (c : Prop) [Decidable c] (l1 l2 : List α) (x : α)
    (hx : x ∈ (if c then l1 else l2)) : x ∈ l1 ∨ x ∈ l2 := by
  by_cases h : c
  · rw [if_pos h] at hx
    exact Or.inl hx
  · rw [if_neg h] at hx
    exact Or.inr hx

/-- The transcription loop performs no file writes: its only effects are
transcription requests and chunk-file deletions. -/
theorem no_write_in_transcribe_chunks (f : ℕ → Except String String) (multi : Bool)
    (folder : List String) : ∀ (l : List ℕ) (g : List String) (nm : String),
    Effect.writeFile g nm ∉ (transcribe_chunks f multi folder l).1 := by
  intro l
  induction l with
  | nil => intro g nm; simp [transcribe_chunks]
  | cons i rest ih =>
    intro g nm
    cases hf : f i with
    | error msg => simp [transcribe_chunks, hf]
    | ok t =>
      cases multi with
      | true =>
        simp only [transcribe_chunks, hf, List.mem_cons, List.mem_append, if_true]
        intro h
        rcases h with h | h
        · exact Effect.noConfusion h
        · rcases h with h | h
          · simp at h
          · exact ih g nm h
      | false =>
        simp only [transcribe_chunks, hf, List.mem_cons, List.mem_append,
          Bool.false_eq_true, if_false]
        intro h
        rcases h with h | h
        · exact Effect.noConfusion h
        · rcases h with h | h
          · simp at h
          · exact ih g nm h

/-- `transcribe` performs no file writes either. -/
theorem no_write_in_transcribe (fs : ℕ) (d : ℚ) (folder g : List String)
    (ch : ℕ → Except String String) (nm : String) :
    Effect.writeFile g nm ∉ (transcribe fs d folder ch).1 :=
  no_write_in_transcribe_chunks ch _ folder _ g nm

/-- The last element of a list with a cons head is the last element of
its tail when the tail has one. -/
theorem getLast?_cons_of_getLast? {α : Type} (a x : α) (l : List α)
    (h : l.getLast? = some x) : (a :: l).getLast? = some x := by
  cases l with
  | nil => simp at h
  | cons b t =>
    rw [List.getLast?_cons_cons]
    exact h

/-- C4 (no partial metadata record): for every run of the pipeline, if
any stage fails then no `metadata.json` is written; a `metadata.json`
write in the trace implies the run succeeded; and on success the
metadata write is the very last effect of the run, after the final
generation stage. -/
theorem C4_no_partial_metadata (env : Env) :
    (∀ msg, (process_video env).2 = .error msg →
      ∀ f, Effect.writeFile f "metadata.json" ∉ (process_video env).1) ∧
    (∀ f, Effect.writeFile f "metadata.json" ∈ (process_video env).1 →
      ∃ p n t c, (process_video env).2 = .ok (PVResult.success p n t c)) ∧
    (∀ p n t c, (process_video env).2 = .ok (PVResult.success p n t c) →
      (process_video env).1.getLast? = some (Effect.writeFile p "metadata.json")) := by
  have core : (∀ f, Effect.writeFile f "metadata.json" ∈ (process_video env).1 →
      ∃ p n t c, (process_video env).2 = .ok (PVResult.success p n t c)) ∧
    (∀ p n t c, (process_video env).2 = .ok (PVResult.success p n t c) →
      (process_video env).1.getLast? = some (Effect.writeFile p "metadata.json")) := by
    by_cases hv : env.videoExists = false
    · refine ⟨fun f hf => ?_, fun p n t c hc => ?_⟩
      · simp [process_video, hv] at hf
      · simp [process_video, hv] at hc
    · by_cases ho : env.openaiKey = false
      · refine ⟨fun f hf => ?_, fun p n t c hc => ?_⟩
        · simp [process_video, hv, ho] at hf
        · simp [process_video, hv, ho] at hc
      · by_cases ha : env.anthropicKey = false
        · refine ⟨fun f hf => ?_, fun p n t c hc => ?_⟩
          · simp [process_video, hv, ho, ha] at hf
          · simp [process_video, hv, ho, ha] at hc
        · cases hchk : check_already_processed true env.archive env.fileHash with
          | error msg0 =>
            refine ⟨fun f hf => ?_, fun p n t c hc => ?_⟩
            · simp [process_video, hv, ho, ha, hchk, List.mem_map] at hf
            · simp [process_video, hv, ho, ha, hchk] at hc
          | ok v =>
            cases v with
            | some ex =>
              refine ⟨fun f hf => ?_, fun p n t c hc => ?_⟩
              · simp [process_video, hv, ho, ha, hchk, List.mem_map] at hf
              · simp [process_video, hv, ho, ha, hchk] at hc
            | none =>
              cases hex : env.extractResult with
              | error msg =>
                refine ⟨fun f hf => ?_, fun p n t c hc => ?_⟩
                · simp [process_video, hv, ho, ha, hchk, hex, List.mem_append,
                    List.mem_map] at hf
                · simp [process_video, hv, ho, ha, hchk, hex] at hc
              | ok duration =>
                cases htr : (transcribe env.audioSize duration
                    (env.subfolder.getD [] ++ ["_processing_" ++ env.timestampStr])
                    env.chunkTranscribe).2 with
                | error msg =>
                  refine ⟨fun f hf => ?_, fun p n t c hc => ?_⟩
                  · simp [process_video, hv, ho, ha, hchk, hex, htr, List.mem_append,
                      List.mem_map, no_write_in_transcribe] at hf
                  · simp [process_video, hv, ho, ha, hchk, hex, htr] at hc
                | ok pr =>
                  obtain ⟨tv, cv⟩ := pr
                  cases hnotes : env.notesResult with
                  | error msg =>
                    refine ⟨fun f hf => ?_, fun p n t c hc => ?_⟩
                    · simp [process_video, hv, ho, ha, hchk, hex, htr, hnotes,
                        List.mem_append, List.mem_map, no_write_in_transcribe] at hf
                    · simp [process_video, hv, ho, ha, hchk, hex, htr, hnotes] at hc
                  | ok pr2 =>
                    obtain ⟨nv, sv⟩ := pr2
                    cases hblog : env.blogResult with
                    | error msg =>
                      refine ⟨fun f hf => ?_, fun p n t c hc => ?_⟩
                      · simp [process_video, hv, ho, ha, hchk, hex, htr, hnotes, hblog,
                          List.mem_append, List.mem_map, no_write_in_transcribe] at hf
                      · simp [process_video, hv, ho, ha, hchk, hex, htr, hnotes, hblog] at hc
                    | ok pr3 =>
                      obtain ⟨bv, cv3⟩ := pr3
                      refine ⟨fun f hf => ?_, fun p n t c hc => ?_⟩
                      · simp [process_video, hv, ho, ha, hchk, hex, htr, hnotes, hblog]
                      · simp [process_video, hv, ho, ha, hchk, hex, htr, hnotes,
                          hblog] at hc ⊢
                        obtain ⟨h1, h2, h3, h4⟩ := hc
                        subst h1
                        refine getLast?_cons_of_getLast? _ _ _ ?_
                        rw [List.getLast?_append_cons]
                        rfl
  refine ⟨?_, core.1, core.2⟩
  intro msg hmsg f hf
  obtain ⟨p, n, t, c, hok⟩ := core.1 f hf
  rw [hmsg] at hok
  exact Except.noConfusion hok

/-- Witness for C4 at two concrete runs: a fully successful run writes
`metadata.json` (so the membership hypothesis is satisfiable and the
success conclusion follows), and a run whose blog stage fails writes no
`metadata.json` anywhere. -/
theorem C4_no_partial_metadata_witness :
    (∃ p n t c, (process_video okEnv).2 = .ok (PVResult.success p n t c)) ∧
    Effect.writeFile ["2025-01-01 - T"] "metadata.json" ∉ (process_video failBlogEnv).1 :=
  ⟨(C4_no_partial_metadata okEnv).2.1 ["2025-01-01 - T"] (by decide),
   (C4_no_partial_metadata failBlogEnv).1 "service error" rfl ["2025-01-01 - T"]⟩

/-- C3 (amended): when the duplicate scan reaches a matching record —
that is, no record visited before it raises an uncaught exception — the
pipeline returns a duplicate result naming the existing folder, invokes
no audio extraction and no transcription, performs no rename and no file
write, and the only directories it creates are previously missing
ancestors of the target directory (created by the recursive directory
make that runs before the duplicate check) — in particular no
provisional processing folder.  When instead the scan hits a record the
`except` clause does not cover (undecodable bytes or non-object JSON)
before any match, the run aborts with that exception, still without
extraction, transcription or file writes. -/
theorem C3_duplicate_frame (env : Env)
    (hv : env.videoExists = true) (ho : env.openaiKey = true)
    (ha : env.anthropicKey = true) :
    (∀ ex, check_already_processed true env.archive env.fileHash = .ok (some ex) →
      (process_video env).2 = .ok (.duplicate ex) ∧
      Effect.extractAudio ∉ (process_video env).1 ∧
      (∀ i, Effect.transcribeChunk i ∉ (process_video env).1) ∧
      (∀ a b, Effect.renameFolder a b ∉ (process_video env).1) ∧
      (∀ f n, Effect.writeFile f n ∉ (process_video env).1) ∧
      (∀ p, Effect.mkdirNew p ∈ (process_video env).1 →
        p ∈ pathPrefixes (env.subfolder.getD []) ∧ p ∉ env.existingDirs)) ∧
    (∀ msg, check_already_processed true env.archive env.fileHash = .error msg →
      (process_video env).2 = .error msg ∧
      Effect.extractAudio ∉ (process_video env).1 ∧
      (∀ i, Effect.transcribeChunk i ∉ (process_video env).1) ∧
      (∀ f n, Effect.writeFile f n ∉ (process_video env).1)) := by
  have hv' : ¬ env.videoExists = false := by simp [hv]
  have ho' : ¬ env.openaiKey = false := by simp [ho]
  have ha' : ¬ env.anthropicKey = false := by simp [ha]
  constructor
  · intro ex hchk
    refine ⟨?_, ?_, ?_, ?_, ?_, ?_⟩
    · simp [process_video, hv', ho', ha', hchk]
    · simp [process_video, hv', ho', ha', hchk]
    · intro i
      simp [process_video, hv', ho', ha', hchk]
    · intro a b
      simp [process_video, hv', ho', ha', hchk]
    · intro f n
      simp [process_video, hv', ho', ha', hchk]
    · intro p hp
      simp [process_video, hv', ho', ha', hchk, List.mem_map, List.mem_filter] at hp
      exact ⟨hp.1, hp.2⟩
  · intro msg hchk
    refine ⟨?_, ?_, ?_, ?_⟩
    · simp [process_video, hv', ho', ha', hchk]
    · simp [process_video, hv', ho', ha', hchk]
    · intro i
      simp [process_video, hv', ho', ha', hchk]
    · intro f n
      simp [process_video, hv', ho', ha', hchk]

/-- Counterexample to C3 as stated: on `dupEnv` — a duplicate source
processed with a `--folder` subfolder that does not exist yet — the run
returns the duplicate result but its trace does create a new directory
(`Math 101`) under the archive root, because the target directory is
made before the duplicate check. -/
theorem C3_duplicate_creates_subfolder :
    (process_video dupEnv).2 = .ok (.duplicate ["2025-01-01 - Old"]) ∧
    (process_video dupEnv).1 = [Effect.mkdirNew ["Math 101"]] ∧
    ["Math 101"] ∉ dupEnv.existingDirs :=
  ⟨rfl, by decide, by decide⟩

/-- Witness for C3 (amended) at two concrete runs: the duplicate run
`dupEnv`, whose scan reaches the matching record, and `crashScanEnv`,
whose scan hits an undecodable record placed before the matching one and
aborts with `UnicodeDecodeError`, with no extraction and no write. -/
theorem C3_duplicate_frame_witness :
    (process_video dupEnv).2 = .ok (.duplicate ["2025-01-01 - Old"]) ∧
    Effect.extractAudio ∉ (process_video dupEnv).1 ∧
    (∀ f n, Effect.writeFile f n ∉ (process_video dupEnv).1) ∧
    (process_video crashScanEnv).2 = .error "UnicodeDecodeError" ∧
    Effect.extractAudio ∉ (process_video crashScanEnv).1 ∧
    (∀ f n, Effect.writeFile f n ∉ (process_video crashScanEnv).1) :=
  ⟨((C3_duplicate_frame dupEnv rfl rfl rfl).1 ["2025-01-01 - Old"] rfl).1,
   ((C3_duplicate_frame dupEnv rfl rfl rfl).1 ["2025-01-01 - Old"] rfl).2.1,
   ((C3_duplicate_frame dupEnv rfl rfl rfl).1 ["2025-01-01 - Old"] rfl).2.2.2.2.1,
   ((C3_duplicate_frame crashScanEnv rfl rfl rfl).2 "UnicodeDecodeError" rfl).1,
   ((C3_duplicate_frame crashScanEnv rfl rfl rfl).2 "UnicodeDecodeError" rfl).2.1,
   ((C3_duplicate_frame crashScanEnv rfl rfl rfl).2 "UnicodeDecodeError" rfl).2.2.2⟩

/-- Counterexample to C5 as stated: the transcription cost is computed
from the audio file's size, not from its duration.  A 1,920,000-byte
audio file encoded at the pipeline's 64 kbps mono setting lasts 240
seconds; the claimed duration-based formula gives `(240/60) * 0.006 =
0.024`, but the code returns `0.006`. -/
theorem C5_cost_not_from_duration :
    transcription_cost 1920000 ≠ 240 / 60 * (6 / 1000) := by
  norm_num [transcription_cost]

/-- C5 (amended): the cost returned by a successful transcription run
depends only on the audio file's size — two runs on the same file size
with different probed durations return the same cost — and equals
`fileSize / (16000 * 2 * 60)` (the minute estimate the source derives
from the file size) times the fixed rate `$0.006` per minute.  It is
never taken from the transcription service's response. -/
theorem C5_transcription_cost_from_size
    (fileSize : ℕ) (dur durOther : ℚ) (folder folderOther : List String)
    (f fOther : ℕ → Except String String) (t tOther : String) (c cOther : ℚ)
    (h1 : (transcribe fileSize dur folder f).2 = .ok (t, c))
    (h2 : (transcribe fileSize durOther folderOther fOther).2 = .ok (tOther, cOther)) :
    c = cOther ∧ c = (fileSize : ℚ) / (16000 * 2 * 60) * (6 / 1000) := by
  have key : ∀ (d : ℚ) (g : List String) (ff : ℕ → Except String String)
      (tt : String) (cc : ℚ),
      (transcribe fileSize d g ff).2 = .ok (tt, cc) → cc = transcription_cost fileSize := by
    intro d g ff tt cc h
    simp only [transcribe] at h
    cases hr : (transcribe_chunks ff
        (decide (1 < (split_audio fileSize 20 d).length)) g
        (List.range (split_audio fileSize 20 d).length)).2 with
    | error m =>
      rw [hr] at h
      simp [Except.map] at h
    | ok ts =>
      rw [hr] at h
      simp [Except.map] at h
      exact h.2.symm
  have k1 := key dur folder f t c h1
  have k2 := key durOther folderOther fOther tOther cOther h2
  exact ⟨k1.trans k2.symm, k1⟩

/-- Witness for C5 (amended): two concrete transcription runs on a
1,920,000-byte audio, one with probed duration 240 s and one with 0 s,
return the same cost. -/
theorem C5_transcription_cost_from_size_witness :
    transcription_cost 1920000 = transcription_cost 1920000 ∧
    transcription_cost 1920000 = ((1920000 : ℕ) : ℚ) / (16000 * 2 * 60) * (6 / 1000) :=
  C5_transcription_cost_from_size 1920000 240 0 [] []
    (fun _ => Except.ok "hello") (fun _ => Except.ok "hello")
    "hello" "hello" (transcription_cost 1920000) (transcription_cost 1920000) rfl rfl

end VideoSum

namespace VideoSum

/-- Counterexample to C9 as stated for ordered items: on input
`"1. a\n2. b\n"` the renderer produces the two item tags with no
enclosing list container at all — neither an unordered nor an ordered
one — because the container-wrapping pass runs before the ordered-item
conversion. -/
theorem C9_ordered_items_not_wrapped :
    hasInfix "<li>a</li>".toList (markdown_to_html_body "1. a\n2. b\n".toList) = true ∧
    hasInfix "<li>b</li>".toList (markdown_to_html_body "1. a\n2. b\n".toList) = true ∧
    hasInfix "<ul".toList (markdown_to_html_body "1. a\n2. b\n".toList) = false ∧
    hasInfix "<ol".toList (markdown_to_html_body "1. a\n2. b\n".toList) = false := by
  refine ⟨by decide, by decide, by decide, by decide⟩

/-- C9 (amended): consecutive unordered `- ` items are merged into a
single `<ul>` container — the fixed input produces a header tag for
`Title` followed by exactly one `<ul>` wrapping the two `<li>` tags —
but consecutive ordered `N. ` items are converted to `<li>` tags with no
enclosing container, because the wrapping pass precedes the ordered-item
conversion. -/
theorem C9_list_merging :
    markdown_to_html_body "# Title\n\n- a\n- b\n".toList =
      "<h1>Title</h1>\n<ul><li>a</li>\n<li>b</li>\n</ul>".toList ∧
    markdown_to_html_body "1. a\n2. b\n".toList = "<li>a</li>\n<li>b</li>".toList := by
  refine ⟨by decide, by decide⟩

/-- C10: whenever `blog.md` already exists in a folder, the blog
regeneration step performs no effect at all — no generation request, no
file write — leaves the persisted cost ledger exactly as it was, and
returns a skip result.  The step has no overwrite/force parameter. -/
theorem C10_blog_skip_frame (st : RbFolder) (gen : Except String (String × ℚ))
    (hb : st.blogExists = true) :
    (regenerate_blog_process_folder st gen).1 = [] ∧
    (regenerate_blog_process_folder st gen).2.1 = st.costs ∧
    ∃ r, (regenerate_blog_process_folder st gen).2.2 = .ok (RbStatus.skip r) := by
  by_cases ht : st.transcriptExists = false
  · exact ⟨by simp [regenerate_blog_process_folder, ht],
      by simp [regenerate_blog_process_folder, ht],
      ⟨"No transcript.txt", by simp [regenerate_blog_process_folder, ht]⟩⟩
  · by_cases hm : st.metadataExists = false
    · exact ⟨by simp [regenerate_blog_process_folder, ht, hm],
        by simp [regenerate_blog_process_folder, ht, hm],
        ⟨"No metadata.json", by simp [regenerate_blog_process_folder, ht, hm]⟩⟩
    · exact ⟨by simp [regenerate_blog_process_folder, ht, hm, hb],
        by simp [regenerate_blog_process_folder, ht, hm, hb],
        ⟨"blog.md already exists", by simp [regenerate_blog_process_folder, ht, hm, hb]⟩⟩

/-- Witness for C10 at a concrete folder: transcript, metadata and
`blog.md` all present, ledger `{transcription: 1, summarization: 2,
total: 3}`; the step changes nothing and skips. -/
theorem C10_blog_skip_frame_witness :
    (regenerate_blog_process_folder
      (RbFolder.mk true true true (Costs.mk (some 1) (some 2) none (some 3)))
      (Except.ok ("post", 1))).1 = [] ∧
    (regenerate_blog_process_folder
      (RbFolder.mk true true true (Costs.mk (some 1) (some 2) none (some 3)))
      (Except.ok ("post", 1))).2.1 = Costs.mk (some 1) (some 2) none (some 3) ∧
    ∃ r, (regenerate_blog_process_folder
      (RbFolder.mk true true true (Costs.mk (some 1) (some 2) none (some 3)))
      (Except.ok ("post", 1))).2.2 = .ok (RbStatus.skip r) :=
  C10_blog_skip_frame
    (RbFolder.mk true true true (Costs.mk (some 1) (some 2) none (some 3)))
    (Except.ok ("post", 1)) rfl

end VideoSum
